import Mathlib

/-!
Shallow embedding of `flask_servicelayer/__init__.py` (Flask-ServiceLayer).

The embedding translates the directory-backed service (`LDAPOMService`), its
read-through cache (`LDAPOMCachedService`), the relational service's
type-validated `save`/`delete` (`SQLAlchemyService`), and the backend-neutral
`Pagination` value object.  Machine integers are modelled as `Nat`/`Int`;
Python exceptions become `Except`/sum results; Python dicts (`kwargs`,
the caches) become association lists or update functions; the LDAP store is a
list of records in backend enumeration order.  `int(ceil(total /
float(per_page)))` is modelled as exact integer arithmetic `(total + per_page
- 1) / per_page` (float rounding is treated as exact real arithmetic).
Each operation of the cached service additionally returns the number of
backend invocations it performed, so that cache-coherence claims are
expressible.
-/

namespace FlaskServiceLayer

/-- Error taxonomy of the service layer.  `notFound` models `abort(404)` /
`NoResultFound`, `typeMismatch` models the `ValueError` raised by
`_isinstance`, `unsupportedOperation` models the `NotImplementedError` raised
by `paginate` on a non-empty `filter_by`, and `multipleResults` models the
bare exception `one`/`retrieve` raise on an ambiguous match. -/
inductive SvcError where
  | notFound
  | typeMismatch
  | unsupportedOperation
  | multipleResults
deriving DecidableEq, Repr

/-- Python list slicing `l[a:b]` for non-negative bounds: drop `a`, then keep
`b - a` elements (both ends clamped to the list length, empty when `b ≤ a`),
exactly as Python clamps slice indices. -/
def pySlice (l : List α) (a b : Nat) : List α :=
  (l.drop a).take (b - a)

/-- The `Pagination` value object: `Pagination(page, per_page, total, items)`. -/
structure Pagination (α : Type) where
  page : Nat
  per_page : Nat
  total : Nat
  items : List α
deriving DecidableEq, Repr

/-- `Pagination.pages`: `int(ceil(self.total / float(self.per_page)))`,
with the float division modelled as exact arithmetic. -/
def Pagination.pages (p : Pagination α) : Nat :=
  (p.total + p.per_page - 1) / p.per_page

/-- `Pagination.has_prev`: `self.page > 1`. -/
def Pagination.has_prev (p : Pagination α) : Bool :=
  decide (p.page > 1)

/-- `Pagination.has_next`: `self.page < self.pages`. -/
def Pagination.has_next (p : Pagination α) : Bool :=
  decide (p.page < p.pages)

/-- The page-window condition of `Pagination.iter_pages`:
`num <= left_edge or (num > self.page - left_current - 1 and
num < self.page + right_current) or num > self.pages - right_edge`.
Comparisons are over `Int`, as in Python, so that the subtractions cannot
truncate. -/
def pageWindowCond (page pages left_edge left_current right_current right_edge
    num : Nat) : Bool :=
  decide ((num : Int) ≤ left_edge) ||
    (decide ((num : Int) > (page : Int) - left_current - 1) &&
      decide ((num : Int) < (page : Int) + right_current)) ||
    decide ((num : Int) > (pages : Int) - right_edge)

/-- The loop body of `iter_pages`: walk the candidate numbers keeping the
last yielded one; for each qualifying number, yield `none` (the gap marker)
first when `last + 1 != num`, then yield the number. -/
def iterPagesAux (cond : Nat → Bool) : Nat → List Nat → List (Option Nat)
  | _, [] => []
  | last, num :: ns =>
    if cond num then
      (if last + 1 ≠ num then [none, some num] else [some num]) ++
        iterPagesAux cond num ns
    else iterPagesAux cond last ns

/-- `Pagination.iter_pages(left_edge=2, left_current=2, right_current=5,
right_edge=2)`: iterate `num` over `range(1, self.pages + 1)` with `last = 0`
initially, materialised as the list of yielded values (`none` is the gap
marker `None`). -/
def Pagination.iter_pages (p : Pagination α)
    (left_edge left_current right_current right_edge : Nat) :
    List (Option Nat) :=
  iterPagesAux
    (pageWindowCond p.page p.pages left_edge left_current right_current
      right_edge)
    0 (List.range' 1 p.pages)

/-- The gap-insertion rule as the spec states it, applied to an arbitrary
list of qualifying numbers: track the last yielded number (initially the
argument), and whenever the next qualifying number is not exactly `last + 1`,
yield a gap marker first.  `Pagination.iter_pages` is proved equal to this
rule applied to the qualifying page numbers. -/
def gapRule : Nat → List Nat → List (Option Nat)
  | _, [] => []
  | last, num :: ns =>
    (if last + 1 = num then [some num] else [none, some num]) ++ gapRule num ns

/-- `LDAPOMService.paginate(page, per_page, order_by, desc, filter_by,
error_out)`.  The store (`self.all()`, i.e. the full backend listing) is the
first argument; `order_by` and `desc` are accepted and ignored exactly as in
the source.  The second component counts backend fetch-all invocations, which
lets fail-fast claims observe that no fetch happened.  The body mirrors the
source line by line: reject a non-empty `filter_by` with
`NotImplementedError`; otherwise fetch all objects, take `total` as their
count, `abort(404)` when `error_out and (page-1)*per_page < total`, and slice
`objects[(page-1)*per_page : page*per_page]`. -/
def paginate (store : List α) (page : Nat := 1) (per_page : Nat := 10)
    (order_by : Option String := none) (desc : Bool := false)
    (filter_by : List (String × String) := []) (error_out : Bool := true) :
    Except SvcError (Pagination α) × Nat :=
  if filter_by ≠ [] then
    (.error .unsupportedOperation, 0)
  else
    let objects := store
    let total := objects.length
    if error_out ∧ (page - 1) * per_page < total then
      (.error .notFound, 1)
    else
      (.ok ⟨page, per_page, total,
        pySlice objects ((page - 1) * per_page) (page * per_page)⟩, 1)

/-- A directory record: a distinguished-name identifier plus a sparse
attribute map (an LDAPOM model entry; an absent attribute is `none`). -/
structure Rec where
  id : String
  attrs : String → Option String

/-- `setattr(obj, k, v)` on a sparse-attribute record. -/
def setAttr (f : String → Option String) (k v : String) :
    String → Option String :=
  fun x => if x = k then some v else f x

/-- `delattr(obj, k)` on a sparse-attribute record: the attribute becomes
absent. -/
def removeAttr (f : String → Option String) (k : String) :
    String → Option String :=
  fun x => if x = k then none else f x

/-- `BaseService._preprocess_params`: drop the transport-only keys
`csrf_token` and `submit`. -/
def preprocess_params (kwargs : List (String × String)) :
    List (String × String) :=
  kwargs.filter (fun kv => ¬(kv.1 = "csrf_token" ∨ kv.1 = "submit"))

/-- `LDAPOMService._preprocess_params`: the base preprocessing, then drop
every key whose value is the empty string. -/
def ldap_preprocess_params (kwargs : List (String × String)) :
    List (String × String) :=
  (preprocess_params kwargs).filter (fun kv => kv.2 ≠ "")

/-- `obj.save()` on the directory store: write the entry at its dn, replacing
an existing entry with the same dn and appending otherwise. -/
def persist (store : List Rec) (r : Rec) : List Rec :=
  if store.any (fun e => e.id = r.id) then
    store.map (fun e => if e.id = r.id then r else e)
  else store ++ [r]

/-- `LDAPOMService.get(id)` = `__model__.retrieve(ldap, id)`: the unique
entry whose identifier matches; `NoResultFound` when there is none, an
ambiguity error when there are several. -/
def ldapGet (store : List Rec) (id : String) : Except SvcError Rec :=
  match store.filter (fun e => e.id = id) with
  | [] => .error .notFound
  | [r] => .ok r
  | _ :: _ :: _ => .error .multipleResults

/-- `LDAPOMService.get_all(*ids)` = `[self.get(id) for id in ids]`: fetch
each id individually, left to right, propagating the first failure. -/
def get_all (store : List Rec) : List String → Except SvcError (List Rec)
  | [] => .ok []
  | id :: ids =>
    match ldapGet store id with
    | .error e => .error e
    | .ok r =>
      match get_all store ids with
      | .error e => .error e
      | .ok rs => .ok (r :: rs)

/-- An LDAPOM search criterion matches a record when every given
attribute/value pair is present verbatim. -/
def matchesCriteria (crit : List (String × String)) (r : Rec) : Bool :=
  crit.all (fun kv => r.attrs kv.1 = some kv.2)

/-- `LDAPOMService.find(**kwargs)` = `list(__model__.search(ldap, **kwargs))`:
the records matching all criteria, in backend enumeration order. -/
def ldapFind (store : List Rec) (crit : List (String × String)) : List Rec :=
  store.filter (matchesCriteria crit)

/-- `LDAPOMService.update(obj, **kwargs)`: first `delattr` every key whose
incoming value is the empty string, then `setattr` each preprocessed
key/value pair, then `self.save(obj)`.  Returns the updated record and the
store after the save.  (The `_isinstance` guard is the identity on a value
that is of the model type, which `Rec` is by construction here; `saveObj`
below models the guard on arbitrary objects.) -/
def update (store : List Rec) (obj : Rec) (kwargs : List (String × String)) :
    Rec × List Rec :=
  let o1 := kwargs.foldl
    (fun r kv => if kv.2 = "" then { r with attrs := removeAttr r.attrs kv.1 }
      else r) obj
  let o2 := (ldap_preprocess_params kwargs).foldl
    (fun r kv => { r with attrs := setAttr r.attrs kv.1 kv.2 }) o1
  (o2, persist store o2)

/-- An object handed to a service method: either an instance of the service's
managed model type or a value of some other type. -/
inductive Obj where
  | model (r : Rec)
  | other (n : Nat)

/-- `SQLAlchemyService.save(obj)`: `self._isinstance(obj)` raises
`ValueError` (the type-mismatch error) on a non-model object before the
session is touched; otherwise add, commit and return. -/
def sqlSave (db : List Rec) (o : Obj) : Except SvcError (Rec × List Rec) :=
  match o with
  | .other _ => .error .typeMismatch
  | .model r => .ok (r, persist db r)

/-- `SQLAlchemyService.delete(obj)`: `self._isinstance(obj)` first, then
delete and commit. -/
def sqlDelete (db : List Rec) (o : Obj) : Except SvcError (List Rec) :=
  match o with
  | .other _ => .error .typeMismatch
  | .model r => .ok (db.filter (fun e => ¬ e.id = r.id))

/-- `LDAPOMService.save(obj)` = `obj.save(); return obj`: no type check of
any kind; the call dispatches to the object itself.  For a model instance
this writes the entry; for any other object the service raises nothing
itself (modelled as leaving the store unchanged). -/
def ldapSaveObj (store : List Rec) (o : Obj) :
    Except SvcError (Obj × List Rec) :=
  .ok (o, match o with
    | .model r => persist store r
    | .other _ => store)

/-- `LDAPOMService.delete(obj)` = `obj.delete()`: again no type check. -/
def ldapDeleteObj (store : List Rec) (o : Obj) : Except SvcError (List Rec) :=
  .ok (match o with
    | .model r => store.filter (fun e => ¬ e.id = r.id)
    | .other _ => store)

/-- The mutable caches of `LDAPOMCachedService.__init__`: `_all_cache = None`,
`_get_cache = dict()`, `_find_cache = dict()`.  The find-cache key is
`hash(tuple(kwargs.items()))`; `hash` is a deterministic function of the
items tuple (equal tuples collide by definition, distinct tuples are taken
collision-free), so the key is modelled by the items tuple itself. -/
structure CacheState where
  all_cache : Option (List Rec)
  get_cache : String → Option Rec
  find_cache : List (String × String) → Option (List Rec)

/-- The freshly constructed cache state. -/
def initCache : CacheState :=
  { all_cache := none, get_cache := fun _ => none, find_cache := fun _ => none }

/-- `LDAPOMCachedService.all()`: fill `_all_cache` from the backend when it
is `None` (one backend fetch), then on every call copy each cached entry into
`_get_cache` keyed by its id, and return the cached listing.  The last
component counts backend invocations performed by the call. -/
def cachedAll (store : List Rec) (s : CacheState) :
    List Rec × CacheState × Nat :=
  let filled : List Rec × Nat :=
    match s.all_cache with
    | none => (store, 1)
    | some l => (l, 0)
  let gc := filled.1.foldl
    (fun g e => fun x => if x = e.id then some e else g x) s.get_cache
  (filled.1,
    { s with all_cache := some filled.1, get_cache := gc }, filled.2)

/-- `LDAPOMCachedService.get(id)`: serve from `_get_cache` when present;
otherwise fetch from the backend, cache a successful result, and propagate a
`NoResultFound` unchanged (the failed assignment caches nothing). -/
def cachedGet (store : List Rec) (id : String) (s : CacheState) :
    Except SvcError Rec × CacheState × Nat :=
  match s.get_cache id with
  | some r => (.ok r, s, 0)
  | none =>
    match ldapGet store id with
    | .ok r =>
      (.ok r,
        { s with get_cache := fun x => if x = id then some r else s.get_cache x },
        1)
    | .error e => (.error e, s, 1)

/-- `LDAPOMCachedService.find(**kwargs)`: key the find-cache by
`hash(tuple(kwargs.items()))` — the criteria in their given order — fetch
from the backend on a miss, and serve the cached sequence thereafter. -/
def cachedFind (store : List Rec) (crit : List (String × String))
    (s : CacheState) : List Rec × CacheState × Nat :=
  match s.find_cache crit with
  | some res => (res, s, 0)
  | none =>
    let res := ldapFind store crit
    (res,
      { s with find_cache := fun x => if x = crit then some res else s.find_cache x },
      1)

/-- `n` successive `all()` calls on the cached service: the list of returned
listings, the final cache state, and the total number of backend fetch-all
invocations. -/
def runAllN (store : List Rec) (s : CacheState) :
    Nat → List (List Rec) × CacheState × Nat
  | 0 => ([], s, 0)
  | n + 1 =>
    let one := cachedAll store s
    let rest := runAllN store one.2.1 n
    (one.1 :: rest.1, rest.2.1, one.2.2 + rest.2.2)

/-- The page-inclusion condition exactly as the spec words it:
`n <= left_edge` OR `pages - n < right_edge` OR
`page - left_current - 1 < n < page + right_current`. -/
def claimPageCond (page pages left_edge left_current right_current right_edge
    n : Nat) : Prop :=
  (n : Int) ≤ left_edge ∨ (pages : Int) - n < right_edge ∨
    ((page : Int) - left_current - 1 < n ∧ (n : Int) < (page : Int) + right_current)

/-- The items a `paginate` call with empty filter and `error_out=False`
returns for a given page (an observer used to state the page-concatenation
property). -/
def paginateItems (store : List α) (page per_page : Nat) : List α :=
  match (paginate store page per_page none false [] false).1 with
  | .ok p => p.items
  | .error _ => []

/-- A 23-record store (the spec's pagination scenario). -/
def store23 : List Nat := List.range 23

/-- A concrete directory record for scenarios. -/
def recSam : Rec :=
  ⟨"cn=sam,dc=example,dc=com",
    fun x => if x = "a" then some "1" else if x = "b" then some "2" else none⟩

/-- A one-record directory store for the cache and fetch scenarios. -/
def storeF : List Rec := [recSam]

/-- The criteria `find(a=1, b=2)` in call order. -/
def crit1 : List (String × String) := [("a", "1"), ("b", "2")]

/-- The same criteria given in the other order: `find(b=2, a=1)`. -/
def crit2 : List (String × String) := [("b", "2"), ("a", "1")]

/-- The cache invariant after a successful `all()`: the full listing is
cached and the id-cache already holds an entry of the listing for every id
occurring in it. -/
def GoodState (store : List Rec) (s : CacheState) : Prop :=
  s.all_cache = some store ∧
    ∀ id ∈ store.map Rec.id,
      ∃ e, s.get_cache id = some e ∧ e ∈ store ∧ e.id = id

/-- A page slice is never wider than `per_page`. -/
theorem page_width_le (page p : Nat) : page * p - (page - 1) * p ≤ p := by
  cases page with
  | zero => simp
  | succ n => rw [Nat.succ_sub_one, Nat.succ_mul]; omega

/-- With empty filter and `error_out=False`, `paginate` returns the slice
`objects[(page-1)*per_page : page*per_page]` of the listing together with
its total length, after exactly one backend fetch. -/
theorem paginate_noerror_eq (α : Type) (store : List α) (page per_page : Nat) :
    paginate store page per_page none false [] false =
      (.ok ⟨page, per_page, store.length,
        pySlice store ((page - 1) * per_page) (page * per_page)⟩, 1) := rfl

/-- Concatenating the slices of pages `1..k` yields the first `k * p`
elements of the listing. -/
theorem join_slices (l : List α) (p : Nat) :
    ∀ k, (List.range' 1 k).flatMap
      (fun pg => pySlice l ((pg - 1) * p) (pg * p)) = l.take (k * p)
  | 0 => by simp
  | k + 1 => by
    rw [List.range'_concat, List.flatMap_append, join_slices l p k]
    have h1 : 1 + 1 * k = k + 1 := by omega
    rw [h1]
    simp only [List.flatMap_cons, List.flatMap_nil, List.append_nil, pySlice,
      Nat.succ_sub_one]
    have hw : (k + 1) * p - k * p = p := by rw [Nat.succ_mul]; omega
    rw [hw, ← List.take_add, Nat.succ_mul]

/-- The listing length never exceeds `pages * per_page`. -/
theorem length_le_pages_mul (n p : Nat) (hp : 0 < p) :
    n ≤ ((n + p - 1) / p) * p := by
  have h1 := Nat.div_add_mod (n + p - 1) p
  have h2 := Nat.mod_lt (n + p - 1) hp
  set q := (n + p - 1) / p
  set r := (n + p - 1) % p
  have h3 : p * q = q * p := Nat.mul_comm p q
  omega

/-- Exact rational ceiling of a natural division agrees with the
`(a + b - 1) / b` encoding. -/
theorem ceil_div_eq (a b : Nat) (hb : 0 < b) :
    (((a + b - 1) / b : Nat) : Int) = Int.ceil ((a : ℚ) / (b : ℚ)) := by
  have hbq : (0 : ℚ) < (b : ℚ) := by exact_mod_cast hb
  symm
  rw [Int.ceil_eq_iff]
  have h1 := Nat.div_add_mod (a + b - 1) b
  have h2 := Nat.mod_lt (a + b - 1) hb
  set q := (a + b - 1) / b with hq
  set r := (a + b - 1) % b with hr
  have k1 : a ≤ b * q := by omega
  have k2 : b * q < a + b := by omega
  have c1 : (b : ℚ) * q < a + b := by exact_mod_cast k2
  have c2 : (a : ℚ) ≤ b * q := by exact_mod_cast k1
  constructor
  · have h3 : ((q : ℚ) - 1) < a / b := by
      rw [lt_div_iff₀ hbq]
      nlinarith
    push_cast
    convert h3 using 2
  · rw [div_le_iff₀ hbq]
    push_cast
    linarith

/-- C6: for every Pagination value (page and per_page positive, total
non-negative), `pages` equals the ceiling of `total / per_page`, `has_prev`
holds exactly when `page > 1`, and `has_next` holds exactly when
`page < pages`. -/
theorem C6_pagination_derived (α : Type) (p : Pagination α)
    (hpp : 0 < p.per_page) :
    ((p.pages : Int) = Int.ceil ((p.total : ℚ) / (p.per_page : ℚ))) ∧
    (p.has_prev = true ↔ 1 < p.page) ∧
    (p.has_next = true ↔ p.page < p.pages) := by
  refine ⟨ceil_div_eq p.total p.per_page hpp, ?_, ?_⟩ <;>
    simp [Pagination.has_prev, Pagination.has_next]

/-- Witness for C6 at the spec's 23-record scenario (page 3, per_page 10). -/
theorem C6_pagination_derived_witness :
    (((Pagination.mk 3 10 23 ([] : List Nat)).pages : Int) =
      Int.ceil ((23 : ℚ) / (10 : ℚ))) ∧
    ((Pagination.mk 3 10 23 ([] : List Nat)).has_prev = true ↔ 1 < 3) :=
  ⟨(C6_pagination_derived Nat ⟨3, 10, 23, []⟩ (by decide)).1,
    (C6_pagination_derived Nat ⟨3, 10, 23, []⟩ (by decide)).2.1⟩

/-- C7: a non-empty `filter_by` against the directory backend fails with the
unsupported-operation error for every `page`, `per_page`, `order_by`, `desc`
and `error_out`, and performs zero backend fetches (fails fast). -/
theorem C7_filter_by_fails_fast (α : Type) (store : List α)
    (page per_page : Nat) (order_by : Option String) (desc : Bool)
    (filter_by : List (String × String)) (error_out : Bool)
    (h : filter_by ≠ []) :
    paginate store page per_page order_by desc filter_by error_out =
      (.error .unsupportedOperation, 0) := by
  simp [paginate, h]

/-- Witness for C7 at a concrete non-empty filter. -/
theorem C7_filter_by_fails_fast_witness :
    paginate ([] : List Nat) 2 7 none true [("a", "1")] false =
      (.error .unsupportedOperation, 0) :=
  C7_filter_by_fails_fast Nat [] 2 7 none true [("a", "1")] false (by decide)

/-- C1 (code bug): on a 23-record store with `per_page=10` and
`error_out=true`, `paginate(page=5)` — a page beyond the range — returns
normally with an empty page, while `paginate(page=3)` — a page that does
contain items — signals not-found: the source's `error_out` test
`(page-1)*per_page < total` is inverted relative to its own docstring
(abort when NO items are on the page). -/
theorem C1_error_out_inverted :
    (paginate store23 5 10 none false [] true).1 = .ok ⟨5, 10, 23, []⟩ ∧
    (paginate store23 3 10 none false [] true).1 = .error .notFound := by
  constructor <;> rfl

/-- C9 (amended): the relational backend's `save` and `delete` validate the
object's type and fail with the type-mismatch error before touching the
store; the directory backend's `save` and `delete` perform no type
validation at all and never raise that error themselves. -/
theorem C9_type_validation (db store : List Rec) (n : Nat) (o : Obj) :
    sqlSave db (Obj.other n) = .error .typeMismatch ∧
    sqlDelete db (Obj.other n) = .error .typeMismatch ∧
    (∀ e, ldapSaveObj store o ≠ .error e) ∧
    (∀ e, ldapDeleteObj store o ≠ .error e) := by
  refine ⟨rfl, rfl, ?_, ?_⟩ <;> intro e h <;>
    simp [ldapSaveObj, ldapDeleteObj] at h

/-- C9 counterexample: the directory backend's `save`/`delete` of an object
that is not of the managed model type succeed rather than failing with the
type-mismatch error. -/
theorem C9_counterexample :
    ldapSaveObj [] (Obj.other 0) = .ok (Obj.other 0, []) ∧
    ldapDeleteObj [] (Obj.other 0) = .ok [] ∧
    ldapSaveObj [] (Obj.other 0) ≠ .error .typeMismatch := by
  refine ⟨rfl, rfl, ?_⟩
  intro h
  simp [ldapSaveObj] at h

/-- C2 (code bug): with the default `error_out=true` the 23-record scenario
`paginate(page=3)` aborts not-found instead of returning its 3 items — the
same inverted `error_out` check as C1 — while the functional content of the
claim holds on the non-aborting path (`error_out=false`): `paginate` returns
exactly the slice `items[(page-1)*per_page : page*per_page]` with `total`
the full length, every page holds at most `per_page` items, concatenating
pages `1..pages` in order reproduces the listing, and the scenario values
(`3` items, `pages==3`, `has_next==false`, `has_prev==true`) come out. -/
theorem C2_paginate_slicing :
    ((paginate store23 3 10 none false [] true).1 = .error .notFound) ∧
    (∀ (α : Type) (store : List α) (page per_page : Nat),
      paginate store page per_page none false [] false =
        (.ok ⟨page, per_page, store.length,
          pySlice store ((page - 1) * per_page) (page * per_page)⟩, 1)) ∧
    (∀ (α : Type) (store : List α) (page per_page : Nat),
      (paginateItems store page per_page).length ≤ per_page) ∧
    (∀ (α : Type) (store : List α) (per_page : Nat), 0 < per_page →
      ∀ p1 : Pagination α,
        (paginate store 1 per_page none false [] false).1 = .ok p1 →
        (List.range' 1 p1.pages).flatMap
          (fun pg => paginateItems store pg per_page) = store) ∧
    (∃ p : Pagination Nat,
      (paginate store23 3 10 none false [] false).1 = .ok p ∧
      p.items.length = 3 ∧ p.pages = 3 ∧ p.has_next = false ∧
      p.has_prev = true) := by
  refine ⟨rfl, fun α store page per_page => rfl, ?_, ?_, ?_⟩
  · intro α store page per_page
    simp only [paginateItems, paginate_noerror_eq, pySlice, List.length_take]
    exact le_trans (Nat.min_le_left _ _) (page_width_le page per_page)
  · intro α store per_page hp p1 h
    rw [paginate_noerror_eq] at h
    simp only [Except.ok.injEq] at h
    subst h
    have he : ∀ pg, paginateItems store pg per_page =
        pySlice store ((pg - 1) * per_page) (pg * per_page) := by
      intro pg
      simp [paginateItems, paginate_noerror_eq]
    simp only [he]
    rw [join_slices]
    exact List.take_of_length_le
      (length_le_pages_mul store.length per_page hp)
  · refine ⟨⟨3, 10, 23, [20, 21, 22]⟩, rfl, rfl, rfl, rfl, rfl⟩

/-- C3 counterexample: the find-cache key is the criteria items in their
given order, so `find(a=1, b=2)` followed by `find(b=2, a=1)` misses the
cache — the key of the second call is absent after the first — and the
second call invokes the backend (one fetch, not zero). -/
theorem C3_order_dependent_cache_key :
    ((cachedFind storeF crit1 initCache).2.1.find_cache crit2 = none) ∧
    (cachedFind storeF crit2 (cachedFind storeF crit1 initCache).2.1).2.2
      = 1 := by
  constructor <;> rfl

/-- C3 (amended): the find-cache key is order-dependent — the hash of the
criteria items in the order given — so two `find` calls with the criteria in
the same order hit the same cache entry: the second performs no backend
fetch and returns the first call's result; differently ordered criteria use
different keys and fetch again. -/
theorem C3_same_order_hits (store : List Rec) (crit : List (String × String))
    (s : CacheState) :
    (cachedFind store crit (cachedFind store crit s).2.1).2.2 = 0 ∧
    (cachedFind store crit (cachedFind store crit s).2.1).1 =
      (cachedFind store crit s).1 := by
  cases h : s.find_cache crit with
  | some res => simp [cachedFind, h]
  | none => simp [cachedFind, h]

/-- Bulk-populating the id-cache from a listing leaves every id outside the
listing untouched. -/
theorem foldl_getcache_not_mem (l : List Rec) (g : String → Option Rec)
    (id : String) (h : id ∉ l.map Rec.id) :
    (l.foldl (fun g e => fun x => if x = e.id then some e else g x) g) id
      = g id := by
  induction l generalizing g with
  | nil => rfl
  | cons a t ih =>
    simp only [List.map_cons, List.mem_cons, not_or] at h
    simp only [List.foldl_cons]
    rw [ih _ h.2]
    simp [h.1]

/-- Bulk-populating the id-cache from a listing stores, for every id of the
listing, an element of the listing carrying that id. -/
theorem foldl_getcache_mem (l : List Rec) (g : String → Option Rec)
    (id : String) (h : id ∈ l.map Rec.id) :
    ∃ e, (l.foldl (fun g e => fun x => if x = e.id then some e else g x) g) id
        = some e ∧ e ∈ l ∧ e.id = id := by
  induction l generalizing g with
  | nil => simp at h
  | cons a t ih =>
    simp only [List.foldl_cons]
    by_cases ht : id ∈ t.map Rec.id
    · obtain ⟨e, he, hm, hid⟩ := ih _ ht
      exact ⟨e, he, List.mem_cons_of_mem _ hm, hid⟩
    · have hid : id = a.id := by
        simp only [List.map_cons, List.mem_cons] at h
        tauto
      refine ⟨a, ?_, List.mem_cons_self a t, hid.symm⟩
      rw [foldl_getcache_not_mem t _ id ht]
      simp [hid]

/-- The first `all()` call on a fresh cache fetches once, returns the
backend listing, and leaves the cache in the populated invariant state. -/
theorem cachedAll_first (store : List Rec) (s : CacheState)
    (h : s.all_cache = none) :
    (cachedAll store s).1 = store ∧ (cachedAll store s).2.2 = 1 ∧
    GoodState store (cachedAll store s).2.1 := by
  unfold cachedAll
  rw [h]
  exact ⟨rfl, rfl, rfl,
    fun id hid => foldl_getcache_mem store s.get_cache id hid⟩

/-- An `all()` call on a populated cache fetches nothing, returns the cached
listing, and preserves the invariant. -/
theorem cachedAll_cached (store : List Rec) (s : CacheState)
    (h : GoodState store s) :
    (cachedAll store s).1 = store ∧ (cachedAll store s).2.2 = 0 ∧
    GoodState store (cachedAll store s).2.1 := by
  unfold cachedAll
  rw [h.1]
  exact ⟨rfl, rfl, rfl,
    fun id hid => foldl_getcache_mem store s.get_cache id hid⟩

/-- Any number of `all()` calls from a populated cache performs zero backend
fetches, returns the cached listing every time, and preserves the
invariant. -/
theorem runAllN_cached (store : List Rec) (n : Nat) :
    ∀ s, GoodState store s →
      (runAllN store s n).2.2 = 0 ∧
      (∀ l ∈ (runAllN store s n).1, l = store) ∧
      GoodState store (runAllN store s n).2.1 := by
  induction n with
  | zero => exact fun s hs => ⟨rfl, by simp [runAllN], hs⟩
  | succ n ih =>
    intro s hs
    obtain ⟨h1, h2, h3⟩ := cachedAll_cached store s hs
    obtain ⟨g1, g2, g3⟩ := ih _ h3
    refine ⟨?_, ?_, ?_⟩
    · simp only [runAllN]
      rw [h2, g1]
    · simp only [runAllN, List.mem_cons]
      rintro l (rfl | hl)
      · exact h1
      · exact g2 l hl
    · simpa only [runAllN] using g3

/-- C4: from a fresh cache, `n` successive `all()` calls invoke the
backend's fetch-all at most once and every call returns the backend listing;
once at least one `all()` has run, `get(id)` for any id present in that
listing performs zero backend fetches and returns a cached record of the
listing with that id. -/
theorem C4_cache_coherence (store : List Rec) (n : Nat) :
    (runAllN store initCache n).2.2 ≤ 1 ∧
    (∀ l ∈ (runAllN store initCache n).1, l = store) ∧
    (1 ≤ n →
      ∀ id ∈ store.map Rec.id,
        (cachedGet store id (runAllN store initCache n).2.1).2.2 = 0 ∧
        ∃ r, (cachedGet store id (runAllN store initCache n).2.1).1 = .ok r ∧
          r ∈ store ∧ r.id = id) := by
  cases n with
  | zero =>
    refine ⟨by simp [runAllN], by simp [runAllN], ?_⟩
    intro h
    exact absurd h (by omega)
  | succ n =>
    obtain ⟨h1, h2, h3⟩ := cachedAll_first store initCache rfl
    obtain ⟨g1, g2, g3⟩ := runAllN_cached store n _ h3
    refine ⟨?_, ?_, ?_⟩
    · simp only [runAllN]
      rw [h2, g1]
    · simp only [runAllN, List.mem_cons]
      rintro l (rfl | hl)
      · exact h1
      · exact g2 l hl
    · intro _ id hmem
      have hst : GoodState store (runAllN store initCache (n + 1)).2.1 := by
        simpa only [runAllN] using g3
      obtain ⟨e, he, hm, hid⟩ := hst.2 id hmem
      have hc : cachedGet store id (runAllN store initCache (n + 1)).2.1 =
          (.ok e, (runAllN store initCache (n + 1)).2.1, 0) := by
        unfold cachedGet
        rw [he]
      rw [hc]
      exact ⟨rfl, e, rfl, hm, hid⟩

/-- The removal pass of `update` never changes the record's identifier. -/
theorem foldl_remove_id (l : List (String × String)) (r : Rec) :
    (l.foldl (fun r kv =>
      if kv.2 = "" then { r with attrs := removeAttr r.attrs kv.1 } else r)
      r).id = r.id := by
  induction l generalizing r with
  | nil => rfl
  | cons a t ih =>
    simp only [List.foldl_cons]
    rw [ih]
    split <;> rfl

/-- The assignment pass of `update` never changes the record's identifier. -/
theorem foldl_set_id (l : List (String × String)) (r : Rec) :
    (l.foldl (fun r kv => { r with attrs := setAttr r.attrs kv.1 kv.2 })
      r).id = r.id := by
  induction l generalizing r with
  | nil => rfl
  | cons a t ih =>
    simp only [List.foldl_cons]
    rw [ih]

/-- After the removal pass, an attribute is absent exactly when some
parameter carries it with the empty-string value; other attributes are
untouched. -/
theorem foldl_remove_attrs (l : List (String × String)) (r : Rec)
    (k : String) :
    (l.foldl (fun r kv =>
      if kv.2 = "" then { r with attrs := removeAttr r.attrs kv.1 } else r)
      r).attrs k = if (k, "") ∈ l then none else r.attrs k := by
  induction l generalizing r with
  | nil => simp
  | cons a t ih =>
    obtain ⟨a1, a2⟩ := a
    simp only [List.foldl_cons]
    rw [ih]
    by_cases hm : (k, "") ∈ t
    · simp [hm, List.mem_cons]
    · simp only [hm, if_false, List.mem_cons]
      by_cases ha : (k, "") = (a1, a2)
      · obtain ⟨rfl, rfl⟩ := Prod.mk.injEq .. ▸ ha
        simp [removeAttr]
      · simp only [ha, false_or, hm, if_false]
        by_cases h2 : a2 = ""
        · have hne : k ≠ a1 := by
            intro hc
            exact ha (by rw [hc, h2])
          simp [h2, removeAttr, hne]
        · simp [h2]

/-- The assignment pass leaves keys it does not assign untouched. -/
theorem foldl_set_not_mem (l : List (String × String)) (r : Rec)
    (k : String) (h : k ∉ l.map Prod.fst) :
    (l.foldl (fun r kv => { r with attrs := setAttr r.attrs kv.1 kv.2 })
      r).attrs k = r.attrs k := by
  induction l generalizing r with
  | nil => rfl
  | cons a t ih =>
    simp only [List.map_cons, List.mem_cons, not_or] at h
    simp only [List.foldl_cons]
    rw [ih _ h.2]
    simp [setAttr, h.1]

/-- With unrepeated keys, the assignment pass stores each assigned value. -/
theorem foldl_set_mem : ∀ (l : List (String × String)) (r : Rec)
    (k v : String), (k, v) ∈ l → (l.map Prod.fst).Nodup →
    (l.foldl (fun r kv => { r with attrs := setAttr r.attrs kv.1 kv.2 })
      r).attrs k = some v
  | [], _, _, _, hmem, _ => by simp at hmem
  | a :: t, r, k, v, hmem, hnd => by
    obtain ⟨a1, a2⟩ := a
    simp only [List.map_cons, List.nodup_cons] at hnd
    simp only [List.foldl_cons]
    rcases List.mem_cons.mp hmem with heq | ht
    · obtain ⟨rfl, rfl⟩ := Prod.mk.injEq .. ▸ heq
      rw [foldl_set_not_mem t _ k hnd.1]
      simp [setAttr]
    · exact foldl_set_mem t _ k v ht hnd.2

/-- Membership in the directory backend's preprocessed parameters: the pair
is an original parameter whose value is not the empty string and whose key
is not transport-only. -/
theorem mem_ldap_preprocess (kwargs : List (String × String))
    (k v : String) :
    (k, v) ∈ ldap_preprocess_params kwargs ↔
      (k, v) ∈ kwargs ∧ v ≠ "" ∧ k ≠ "csrf_token" ∧ k ≠ "submit" := by
  simp only [ldap_preprocess_params, preprocess_params, List.mem_filter,
    decide_not, decide_eq_true_eq, Bool.not_eq_eq_eq_not, Bool.not_true,
    decide_eq_false_iff_not, not_or]
  tauto

/-- Preprocessing preserves key uniqueness. -/
theorem preprocess_keys_nodup (kwargs : List (String × String))
    (h : (kwargs.map Prod.fst).Nodup) :
    ((ldap_preprocess_params kwargs).map Prod.fst).Nodup := by
  have hsub : List.Sublist (ldap_preprocess_params kwargs) kwargs :=
    (List.filter_sublist _).trans (List.filter_sublist _)
  exact h.sublist (hsub.map Prod.fst)

/-- With unrepeated keys, a key determines its value in the parameters. -/
theorem nodup_keys_unique : ∀ (kwargs : List (String × String))
    (k v w : String), (kwargs.map Prod.fst).Nodup →
    (k, v) ∈ kwargs → (k, w) ∈ kwargs → v = w
  | [], _, _, _, _, h1, _ => by simp at h1
  | a :: t, k, v, w, h, h1, h2 => by
    obtain ⟨a1, a2⟩ := a
    simp only [List.map_cons, List.nodup_cons] at h
    rcases List.mem_cons.mp h1 with e1 | m1 <;>
      rcases List.mem_cons.mp h2 with e2 | m2
    · obtain ⟨rfl, rfl⟩ := Prod.mk.injEq .. ▸ e1
      obtain ⟨-, rfl⟩ := Prod.mk.injEq .. ▸ e2
      rfl
    · obtain ⟨rfl, rfl⟩ := Prod.mk.injEq .. ▸ e1
      exact absurd (List.mem_map.mpr ⟨(k, w), m2, rfl⟩) h.1
    · obtain ⟨rfl, rfl⟩ := Prod.mk.injEq .. ▸ e2
      exact absurd (List.mem_map.mpr ⟨(k, v), m1, rfl⟩) h.1
    · exact nodup_keys_unique t k v w h.2 m1 m2

/-- A key given with the empty-string value survives into no preprocessed
pair (its only pair was dropped). -/
theorem empty_key_dropped (kwargs : List (String × String)) (k : String)
    (hnd : (kwargs.map Prod.fst).Nodup) (h : (k, "") ∈ kwargs) :
    k ∉ (ldap_preprocess_params kwargs).map Prod.fst := by
  intro hk
  obtain ⟨kv, hkv, hfst⟩ := List.mem_map.mp hk
  obtain ⟨k1, v1⟩ := kv
  cases hfst
  obtain ⟨hin, hne, -, -⟩ := (mem_ldap_preprocess kwargs k1 v1).mp hkv
  exact hne (nodup_keys_unique kwargs k1 v1 "" hnd hin h)

/-- After a save, the entry at the saved record's dn is exactly that record
(given the directory's dn uniqueness). -/
theorem filter_persist : ∀ (store : List Rec) (r : Rec),
    (store.map Rec.id).Nodup →
    (persist store r).filter (fun e => e.id = r.id) = [r]
  | [], r, _ => by simp [persist]
  | a :: t, r, h => by
    simp only [List.map_cons, List.nodup_cons] at h
    obtain ⟨h1, h2⟩ := h
    by_cases ha : a.id = r.id
    · have hany : ((a :: t).any fun e => e.id = r.id) = true := by
        simp [List.any_cons, ha]
      unfold persist
      rw [if_pos hany]
      simp only [List.map_cons, if_pos ha]
      rw [List.filter_cons_of_pos (by simp)]
      have hnil : (t.map fun e => if e.id = r.id then r else e).filter
          (fun e => e.id = r.id) = [] := by
        rw [List.filter_eq_nil_iff]
        intro x hx
        obtain ⟨e, he, rfl⟩ := List.mem_map.mp hx
        have hne : e.id ≠ r.id := by
          intro hc
          exact h1 (List.mem_map.mpr ⟨e, he, by rw [hc, ha]⟩)
        rw [if_neg hne]
        simp [hne]
      rw [hnil]
    · by_cases hta : (t.any fun e => e.id = r.id) = true
      · have hany : ((a :: t).any fun e => e.id = r.id) = true := by
          simp [List.any_cons, hta]
        have iht := filter_persist t r h2
        unfold persist at iht ⊢
        rw [if_pos hta] at iht
        rw [if_pos hany]
        simp only [List.map_cons, if_neg ha]
        rw [List.filter_cons_of_neg (by simp [ha])]
        exact iht
      · have hany : ((a :: t).any fun e => e.id = r.id) = false := by
          simp only [List.any_cons, Bool.or_eq_false_iff]
          exact ⟨by simp [ha], by simpa using hta⟩
        have iht := filter_persist t r h2
        unfold persist at iht ⊢
        rw [if_neg (by simp [hta])] at iht
        rw [if_neg (by simp [hany])]
        rw [List.cons_append]
        rw [List.filter_cons_of_neg (by simp [ha])]
        exact iht

/-- Retrieving a just-saved record by its dn yields that record. -/
theorem ldapGet_persist (store : List Rec) (r : Rec)
    (h : (store.map Rec.id).Nodup) :
    ldapGet (persist store r) r.id = .ok r := by
  unfold ldapGet
  rw [filter_persist store r h]

/-- C8: `update` first removes every attribute whose incoming value is the
empty string, then assigns the preprocessed remaining pairs (transport-only
and empty-string-valued keys excluded) leaving other attributes untouched,
keeps the identifier, persists, and a subsequent `get` of the record's id
returns the updated record — each empty-string-keyed attribute absent. -/
theorem C8_update_removes_empty (store : List Rec) (obj : Rec)
    (kwargs : List (String × String))
    (hk : (kwargs.map Prod.fst).Nodup)
    (hs : (store.map Rec.id).Nodup) :
    (update store obj kwargs).1.id = obj.id ∧
    (∀ k, (k, "") ∈ kwargs → (update store obj kwargs).1.attrs k = none) ∧
    (∀ k v, (k, v) ∈ kwargs → v ≠ "" → k ≠ "csrf_token" → k ≠ "submit" →
      (update store obj kwargs).1.attrs k = some v) ∧
    (∀ k, k ∉ kwargs.map Prod.fst →
      (update store obj kwargs).1.attrs k = obj.attrs k) ∧
    ldapGet (update store obj kwargs).2 obj.id = .ok (update store obj kwargs).1 := by
  have hid : (update store obj kwargs).1.id = obj.id := by
    unfold update
    rw [foldl_set_id, foldl_remove_id]
  refine ⟨hid, ?_, ?_, ?_, ?_⟩
  · intro k hk0
    unfold update
    rw [foldl_set_not_mem _ _ _ (empty_key_dropped kwargs k hk hk0),
      foldl_remove_attrs]
    simp [hk0]
  · intro k v hin hv hc hsub
    unfold update
    exact foldl_set_mem _ _ k v
      ((mem_ldap_preprocess kwargs k v).mpr ⟨hin, hv, hc, hsub⟩)
      (preprocess_keys_nodup kwargs hk)
  · intro k hnk
    have hnp : k ∉ (ldap_preprocess_params kwargs).map Prod.fst := by
      intro hp
      obtain ⟨kv, hkv, hfst⟩ := List.mem_map.mp hp
      obtain ⟨k1, v1⟩ := kv
      cases hfst
      obtain ⟨hin, -, -, -⟩ := (mem_ldap_preprocess kwargs k1 v1).mp hkv
      exact hnk (List.mem_map.mpr ⟨(k1, v1), hin, rfl⟩)
    have hne : (k, "") ∉ kwargs := fun hc =>
      hnk (List.mem_map.mpr ⟨(k, ""), hc, rfl⟩)
    unfold update
    rw [foldl_set_not_mem _ _ _ hnp, foldl_remove_attrs]
    simp [hne]
  · show ldapGet (persist store (update store obj kwargs).1) obj.id =
      .ok (update store obj kwargs).1
    rw [← hid]
    exact ldapGet_persist store _ hs

/-- Witness for C8: updating the scenario record with `a=""` (remove) and
`c="3"` (assign) on the one-record store. -/
theorem C8_update_removes_empty_witness :
    (update storeF recSam [("a", ""), ("c", "3")]).1.attrs "a" = none ∧
    (update storeF recSam [("a", ""), ("c", "3")]).1.attrs "c" = some "3" := by
  have h := C8_update_removes_empty storeF recSam [("a", ""), ("c", "3")]
    (by decide) (by decide)
  exact ⟨h.2.1 "a" (by decide),
    h.2.2.1 "c" "3" (by decide) (by decide) (by decide) (by decide)⟩

/-- Retrieval of an id present in a dn-unique directory returns the unique
record with that id. -/
theorem ldapGet_present : ∀ (store : List Rec) (id : String),
    (store.map Rec.id).Nodup → id ∈ store.map Rec.id →
    ∃ r, ldapGet store id = .ok r ∧ r ∈ store ∧ r.id = id
  | [], id, _, hmem => by simp at hmem
  | a :: t, id, h, hmem => by
    simp only [List.map_cons, List.nodup_cons] at h
    by_cases ha : a.id = id
    · have hnil : t.filter (fun e => e.id = id) = [] := by
        rw [List.filter_eq_nil_iff]
        intro e he
        simp only [decide_eq_true_eq]
        intro hc
        exact h.1 (List.mem_map.mpr ⟨e, he, by rw [hc, ha]⟩)
      refine ⟨a, ?_, List.mem_cons_self a t, ha⟩
      unfold ldapGet
      rw [List.filter_cons_of_pos (by simp [ha]), hnil]
    · have hmt : id ∈ t.map Rec.id := by
        simp only [List.map_cons, List.mem_cons] at hmem
        tauto
      obtain ⟨r, hr, hrs, hri⟩ := ldapGet_present t id h.2 hmt
      refine ⟨r, ?_, List.mem_cons_of_mem a hrs, hri⟩
      unfold ldapGet at hr ⊢
      rw [List.filter_cons_of_neg (by simp [ha])]
      exact hr

/-- Retrieval of an id absent from the directory raises `NoResultFound`. -/
theorem ldapGet_absent (store : List Rec) (id : String)
    (h : id ∉ store.map Rec.id) :
    ldapGet store id = .error .notFound := by
  have hnil : store.filter (fun e => e.id = id) = [] := by
    rw [List.filter_eq_nil_iff]
    intro e he
    simp only [decide_eq_true_eq]
    intro hc
    exact h (List.mem_map.mpr ⟨e, he, hc⟩)
  unfold ldapGet
  rw [hnil]

/-- C10: `get_all(ids)` fetches each id individually: when every id is
present it returns one record per id, in the order the ids were given; when
any id is absent the whole call fails with the not-found error instead of
omitting that id. -/
theorem C10_get_all_ordered (store : List Rec) (ids : List String)
    (h : (store.map Rec.id).Nodup) :
    ((∀ id ∈ ids, id ∈ store.map Rec.id) →
      ∃ l, get_all store ids = .ok l ∧ l.length = ids.length ∧
        List.Forall₂ (fun r i => r ∈ store ∧ r.id = i) l ids) ∧
    ((∃ id ∈ ids, id ∉ store.map Rec.id) →
      get_all store ids = .error .notFound) := by
  induction ids with
  | nil =>
    refine ⟨fun _ => ⟨[], rfl, rfl, List.Forall₂.nil⟩, ?_⟩
    rintro ⟨id, hin, -⟩
    simp at hin
  | cons i t ih =>
    refine ⟨?_, ?_⟩
    · intro hall
      obtain ⟨r, hr, hrs, hri⟩ :=
        ldapGet_present store i h (hall i (List.mem_cons_self i t))
      obtain ⟨l, hl, hlen, hfa⟩ :=
        ih.1 (fun id hid => hall id (List.mem_cons_of_mem i hid))
      refine ⟨r :: l, ?_, by simp [hlen], List.Forall₂.cons ⟨hrs, hri⟩ hfa⟩
      unfold get_all
      rw [hr, hl]
    · rintro ⟨id, hid, habs⟩
      rcases List.mem_cons.mp hid with rfl | hmem
      · unfold get_all
        rw [ldapGet_absent store id habs]
      · by_cases hi : i ∈ store.map Rec.id
        · obtain ⟨r, hr, -, -⟩ := ldapGet_present store i h hi
          have ht := ih.2 ⟨id, hmem, habs⟩
          unfold get_all
          rw [hr, ht]
        · unfold get_all
          rw [ldapGet_absent store i hi]

/-- Witness for C10: fetching the one id of the one-record store succeeds
with one record; adding an absent id makes the whole call fail. -/
theorem C10_get_all_ordered_witness :
    (∃ l, get_all storeF ["cn=sam,dc=example,dc=com"] = .ok l ∧
      l.length = ["cn=sam,dc=example,dc=com"].length ∧
      List.Forall₂ (fun r i => r ∈ storeF ∧ r.id = i) l
        ["cn=sam,dc=example,dc=com"]) ∧
    get_all storeF ["cn=sam,dc=example,dc=com", "cn=nobody"] =
      .error .notFound := by
  have h := C10_get_all_ordered storeF ["cn=sam,dc=example,dc=com"]
    (by decide)
  have h2 := C10_get_all_ordered storeF
    ["cn=sam,dc=example,dc=com", "cn=nobody"] (by decide)
  refine ⟨h.1 ?_, h2.2 ?_⟩
  · intro id hid
    simp only [List.mem_singleton] at hid
    subst hid
    decide
  · exact ⟨"cn=nobody", by decide, by decide⟩

/-- The `iter_pages` loop is the spec's gap rule applied to the qualifying
numbers. -/
theorem iterPagesAux_eq_gapRule (cond : Nat → Bool) :
    ∀ (l : List Nat) (last : Nat),
      iterPagesAux cond last l = gapRule last (l.filter cond)
  | [], _ => rfl
  | n :: ns, last => by
    unfold iterPagesAux
    by_cases hc : cond n
    · rw [if_pos hc, List.filter_cons_of_pos hc]
      unfold gapRule
      rw [iterPagesAux_eq_gapRule cond ns n]
      by_cases he : last + 1 = n
      · rw [if_neg (by simp [he]), if_pos he]
      · rw [if_pos he, if_neg he]
    · rw [if_neg hc, List.filter_cons_of_neg hc]
      exact iterPagesAux_eq_gapRule cond ns last

/-- The gap rule yields exactly the numbers of its input list. -/
theorem mem_gapRule : ∀ (l : List Nat) (last n : Nat),
    some n ∈ gapRule last l ↔ n ∈ l
  | [], _, _ => by simp [gapRule]
  | m :: ms, last, n => by
    unfold gapRule
    by_cases he : last + 1 = m
    · rw [if_pos he]
      simp [mem_gapRule ms m n]
    · rw [if_neg he]
      simp [mem_gapRule ms m n]

/-- When the gap rule's output opens with a number, that number is exactly
`last + 1` (otherwise a gap marker would have come first). -/
theorem gapRule_head : ∀ (l : List Nat) (last m : Nat),
    (gapRule last l)[0]? = some (some m) → m = last + 1
  | [], _, _ => by simp [gapRule]
  | n :: ns, last, m => by
    unfold gapRule
    by_cases he : last + 1 = n
    · rw [if_pos he]
      intro h
      simp only [List.singleton_append, List.getElem?_cons_zero,
        Option.some.injEq] at h
      omega
    · rw [if_neg he]
      intro h
      simp at h

/-- Two directly consecutive numbers in the gap rule's output are always
successive integers: a non-successor is preceded by a gap marker. -/
theorem gapRule_adjacent : ∀ (l : List Nat) (last : Nat) (i a b : Nat),
    (gapRule last l)[i]? = some (some a) →
    (gapRule last l)[i + 1]? = some (some b) → b = a + 1
  | [], _, _, _, _ => by simp [gapRule]
  | n :: ns, last, i, a, b => by
    unfold gapRule
    by_cases he : last + 1 = n
    · rw [if_pos he]
      simp only [List.singleton_append]
      match i with
      | 0 =>
        intro h1 h2
        simp only [List.getElem?_cons_zero, Option.some.injEq] at h1
        simp only [List.getElem?_cons_succ] at h2
        have hb := gapRule_head ns n b h2
        omega
      | i + 1 =>
        simp only [List.getElem?_cons_succ]
        exact gapRule_adjacent ns n i a b
    · rw [if_neg he]
      simp only [List.cons_append, List.nil_append]
      match i with
      | 0 =>
        intro h1
        simp at h1
      | 1 =>
        intro h1 h2
        simp only [List.getElem?_cons_succ, List.getElem?_cons_zero,
          Option.some.injEq] at h1
        simp only [List.getElem?_cons_succ] at h2
        have hb := gapRule_head ns n b h2
        omega
      | i + 2 =>
        simp only [List.getElem?_cons_succ]
        exact gapRule_adjacent ns n i a b

/-- The source's window condition agrees with the spec's wording of it. -/
theorem pageWindowCond_iff (page pages left_edge left_current right_current
    right_edge n : Nat) :
    (pageWindowCond page pages left_edge left_current right_current
      right_edge n = true) ↔
      claimPageCond page pages left_edge left_current right_current
        right_edge n := by
  unfold pageWindowCond claimPageCond
  simp only [Bool.or_eq_true, Bool.and_eq_true, decide_eq_true_eq]
  omega

/-- C5: `iter_pages` equals the spec's gap-insertion rule applied to the
qualifying page numbers (a gap marker stands exactly before each yielded
number that is not `last + 1`); a number `n` in `[1, pages]` is yielded iff
`n ≤ left_edge` or `pages - n < right_edge` or
`page - left_current - 1 < n < page + right_current`; nothing outside
`[1, pages]` is ever yielded; and two directly consecutive yielded numbers
are always adjacent. -/
theorem C5_iter_pages_window (α : Type) (p : Pagination α)
    (left_edge left_current right_current right_edge : Nat) :
    (p.iter_pages left_edge left_current right_current right_edge =
      gapRule 0 ((List.range' 1 p.pages).filter
        (pageWindowCond p.page p.pages left_edge left_current right_current
          right_edge))) ∧
    (∀ n, 1 ≤ n → n ≤ p.pages →
      (some n ∈ p.iter_pages left_edge left_current right_current right_edge
        ↔ claimPageCond p.page p.pages left_edge left_current right_current
            right_edge n)) ∧
    (∀ n, some n ∈ p.iter_pages left_edge left_current right_current
        right_edge → 1 ≤ n ∧ n ≤ p.pages) ∧
    (∀ i a b,
      (p.iter_pages left_edge left_current right_current right_edge)[i]? =
        some (some a) →
      (p.iter_pages left_edge left_current right_current right_edge)[i + 1]?
        = some (some b) → b = a + 1) := by
  have heq : p.iter_pages left_edge left_current right_current right_edge =
      gapRule 0 ((List.range' 1 p.pages).filter
        (pageWindowCond p.page p.pages left_edge left_current right_current
          right_edge)) :=
    iterPagesAux_eq_gapRule _ _ 0
  refine ⟨heq, ?_, ?_, ?_⟩
  · intro n h1 h2
    rw [heq, mem_gapRule, List.mem_filter, List.mem_range'_1,
      pageWindowCond_iff]
    have hb : 1 ≤ n ∧ n < 1 + p.pages := ⟨h1, by omega⟩
    exact ⟨fun hx => hx.2, fun hx => ⟨hb, hx⟩⟩
  · intro n hn
    rw [heq, mem_gapRule, List.mem_filter, List.mem_range'_1] at hn
    omega
  · intro i a b h1 h2
    rw [heq] at h1 h2
    exact gapRule_adjacent _ 0 i a b h1 h2

/-- Witness for C5: the full `iter_pages` output of a 23-page pagination at
page 10 with the default window, derived from the theorem's structural
equation evaluated on the qualifying numbers. -/
theorem C5_iter_pages_window_witness :
    (Pagination.mk 10 10 230 ([] : List Nat)).iter_pages 2 2 5 2 =
      [some 1, some 2, none, some 8, some 9, some 10, some 11, some 12,
        some 13, some 14, none, some 22, some 23] ∧
    some 2 ∈ (Pagination.mk 10 10 230 ([] : List Nat)).iter_pages 2 2 5 2 := by
  have h := C5_iter_pages_window Nat ⟨10, 10, 230, []⟩ 2 2 5 2
  refine ⟨?_, (h.2.1 2 (by decide) (by decide)).mpr (Or.inl (by decide))⟩
  rw [h.1]
  rfl

end FlaskServiceLayer
